import Mathlib

/-!
Verification of the mention-aggregation and KPI-computation engine of the
Flash_Narrative repository (`src/analysis.py`), as a shallow embedding.

Conventions of the embedding:
  * Python strings are Lean `String` (a wrapper around `List Char`);
    `str.lower()` is `strLower`, matching Python on ASCII input.
  * `re.search(r'\b' + re.escape(k) + r'\b', t)` (a word-boundary search for
    the literal `k`) is `reSearchWB k.data t.data`.
  * Python `in` on strings (substring containment) is `strContains`.
  * Optional dict fields are modelled with `Option`: `none` means the key is
    absent, matching `item.get(key)`/`key not in item` on well-typed records.
  * Timestamps are integers (seconds); `timedelta(hours=h)` is `h * 3600`.
  * The external `dateutil` parser is a parameter
    `parse : String -> Option (Int × Option Int)` returning the parsed clock
    reading together with an optional UTC offset (`none` = timezone-naive);
    a `none` result models a parsing exception.
  * Python floats produced by `/` and `* 100` are modelled as exact rationals.
-/

/-- A character counts for Python's regex `\b` (word characters: `[A-Za-z0-9_]`
on the ASCII inputs considered here). -/
def isWordChar (c : Char) : Bool := c.isAlphanum || c = '_'

/-- Is the character at index `i` of `t` a word character (out of range counts
as non-word, matching regex semantics at the string edges)? -/
def wordAt (t : List Char) (i : Nat) : Bool :=
  match t[i]? with
  | some c => isWordChar c
  | none => false

/-- Regex `\b`: there is a word boundary at position `p` of `t`. -/
def boundaryAt (t : List Char) (p : Nat) : Bool :=
  (if p = 0 then false else wordAt t (p - 1)) != wordAt t p

/-- The literal pattern `kw` matches at position `i` of `t` with word
boundaries on both sides (the pattern `\b<escaped kw>\b`). -/
def matchWBAt (kw t : List Char) (i : Nat) : Bool :=
  boundaryAt t i && ((t.drop i).take kw.length == kw) && boundaryAt t (i + kw.length)

/-- `re.search(r'\b' + re.escape(kw) + r'\b', t)` succeeds somewhere in `t`. -/
def reSearchWB (kw t : List Char) : Bool :=
  (List.range (t.length + 1)).any (matchWBAt kw t)

/-- Substring containment over character lists (Python `needle in hay`). -/
def containsSub (hay needle : List Char) : Bool :=
  (List.range (hay.length + 1)).any (fun i => (hay.drop i).take needle.length == needle)

/-- Python `needle in hay` for strings. -/
def strContains (hay needle : String) : Bool := containsSub hay.data needle.data

/-- Python `s.lower()` (ASCII case folding). -/
def strLower (s : String) : String := ⟨s.data.map Char.toLower⟩

/-- A Python value that is `None` or the empty string is falsy. -/
def falsyStr : Option String → Bool
  | none => true
  | some s => s == ""

-- === Keyword lists of `analyze_sentiment_keywords` (src/analysis.py) ===

def positive_kws : List String := [
  "good", "great", "excellent", "positive", "love", "awesome", "best", "happy",
  "like", "amazing", "superb",
  "fantastic", "recommend", "perfect", "thrilled", "delighted", "satisfied",
  "easy", "seamless",
  "wins", "won", "award", "recognition", "honoured", "named as", "ranked #1",
  "leading", "top-tier",
  "successful", "successfully", "oversubscribed", "exceeds expectations",
  "confidence",
  "grows", "growth", "rise", "increase", "expansion", "accelerate", "boost",
  "outperforms",
  "launches", "unveils", "introduces", "new initiative", "new product",
  "new feature",
  "profit", "profits", "profitable", "strong performance", "robust", "stronger",
  "upgrades", "stable outlook", "reaffirms", "commitment", "strengthening"]

def appreciation_kws : List String := [
  "thank", "thanks", "grateful", "kudos", "congratulations", "congrats",
  "props", "helpful",
  "appreciate", "appreciation", "lauds", "commends", "praised", "legacy",
  "honoring",
  "empower", "support", "champions", "donates", "donation", "csr", "esg",
  "community", "foundation", "sponsors"]

def negative_kws : List String := [
  "bad", "poor", "terrible", "negative", "hate", "awful", "worst", "sad",
  "dislike", "broken",
  "disappointed", "frustrated", "horrible", "useless", "embarrassing",
  "fail", "failed", "issue", "problem", "avoid", "scam", "fraud", "fraudulent",
  "allegation", "alleges",
  "downtime", "glitch", "glitches", "crashes", "down", "outage", "unauthorized",
  "fined", "sanctioned", "penalty", "lawsuit", "court", "arrest", "efcc",
  "crisis", "vulnerabilities", "threats", "risk", "stifling", "rift",
  "loss", "losses", "decline", "dip", "drop", "slump", "erosion",
  "undersubscribed",
  "complaint", "complaints", "fume", "laments", "outcry", "slams"]

def anger_kws : List String := [
  "angry", "furious", "rage", "mad", "outrage", "pissed", "fuming", "livid",
  "worst!",
  "stealing", "thieves", "scammed", "disgusted"]

def mixed_kws : List String := [
  "but", "however", "although", "yet", "still", "despite", "while", "though"]

/-- `analyze_sentiment_keywords(text)` of src/analysis.py: keyword sentiment
classification.  `text : Option String` models a Python argument that may be
`None` (`none`); `if not text` is `falsyStr`. -/
def analyze_sentiment_keywords (text : Option String) : String :=
  if falsyStr text then "neutral" else
  let text_lower := (strLower (text.getD "")).data
  let pos_count := positive_kws.countP (fun k => reSearchWB k.data text_lower)
  let neg_count := negative_kws.countP (fun k => reSearchWB k.data text_lower)
  let anger_count := anger_kws.countP (fun k => reSearchWB k.data text_lower)
  let app_count := appreciation_kws.countP (fun k => reSearchWB k.data text_lower)
  let has_mixed := mixed_kws.any (fun k => reSearchWB k.data text_lower)
  if 0 < anger_count then "anger"
  else if (0 < pos_count ∧ 0 < neg_count) ∨
      (has_mixed ∧ (0 < pos_count ∨ 0 < neg_count)) then "mixed"
  else if 0 < neg_count then "negative"
  else if 0 < pos_count then "positive"
  else if 0 < app_count then "appreciation"
  else "neutral"

/-- The claim's description of the classifier: a rule chain where each rule
tests whether *any* keyword of the relevant set occurs as a whole word in the
lower-cased text, rules tried in the exact precedence anger, mixed, negative,
positive, appreciation, neutral; empty or absent text is `neutral` with no
keyword scan. -/
def classify_sentiment_spec (text : Option String) : String :=
  match text with
  | none => "neutral"
  | some s =>
    if s = "" then "neutral" else
    let tl := (strLower s).data
    let hasPos := positive_kws.any (fun k => reSearchWB k.data tl)
    let hasNeg := negative_kws.any (fun k => reSearchWB k.data tl)
    let hasAnger := anger_kws.any (fun k => reSearchWB k.data tl)
    let hasApp := appreciation_kws.any (fun k => reSearchWB k.data tl)
    let hasMixed := mixed_kws.any (fun k => reSearchWB k.data tl)
    if hasAnger then "anger"
    else if (hasPos && hasNeg) || (hasMixed && (hasPos || hasNeg)) then "mixed"
    else if hasNeg then "negative"
    else if hasPos then "positive"
    else if hasApp then "appreciation"
    else "neutral"


-- === Time filter (`filter_by_hours`, src/analysis.py lines 114-138) ===

/-- A Python `date` field value: either an already-structured `datetime`
(clock reading in seconds plus an optional UTC offset; `none` offset =
timezone-naive), or a raw string still to be parsed. -/
inductive DateV : Type
  | dtV (reading : Int) (tz : Option Int)
  | strV (s : String)
deriving DecidableEq

/-- The absolute UTC instant of a parsed/structured datetime after the
filter's normalization: a timezone-naive value is re-interpreted as UTC
(`item_time.replace(tzinfo=timezone.utc)`), an aware one is converted. -/
def normInstant : Int × Option Int → Int
  | (r, some off) => r - off
  | (r, none) => r

/-- The `(reading, tz)` pair the filter works with for a mention's `date`
field: a structured datetime is accepted verbatim, anything else goes through
`dateparser.parse(str(raw_date))` (an absent field stringifies to "None");
`none` models the parser raising. -/
def parsedOf (parse : String → Option (Int × Option Int)) :
    Option DateV → Option (Int × Option Int)
  | some (DateV.dtV r tz) => some (r, tz)
  | some (DateV.strV s) => parse s
  | none => parse "None"

/-- `hours` is falsy (`if not hours`): unset or zero. -/
def hoursFalsy : Option Nat → Bool
  | none => true
  | some h => h == 0

-- === Mention records (the dict schema of src/analysis.py) ===

/-- A numeric-ish dict field as Python sees it: key absent, `None`, an int,
a string, or a float NaN. -/
inductive NumVal : Type
  | absent
  | null
  | intV (n : Int)
  | strV (s : String)
  | nanV
deriving DecidableEq

/-- A `mentioned_brands` value: the code accepts a bare string or a list of
strings (`if isinstance(mentions, str): mentions = [mentions]`). -/
inductive MBV : Type
  | one (v : String)
  | many (vs : List String)
deriving DecidableEq

/-- One mention record.  `none` models an absent dict key. -/
structure Mention : Type where
  text : Option String
  source : Option String
  date : Option DateV
  link : Option String
  authority : Option Int
  reach : NumVal
  likes : NumVal
  comments : NumVal
  sentiment : Option String
  theme : Option String
  mentioned_brands : Option MBV
deriving DecidableEq

/-- `filter_by_hours`'s keep decision for one mention (the `try` body):
parse the date, assume UTC when naive, keep iff `item_time >= cutoff`;
a parse failure keeps the mention (fail open). -/
def keepMention (parse : String → Option (Int × Option Int)) (cutoff : Int)
    (m : Mention) : Bool :=
  match parsedOf parse m.date with
  | some p => cutoff ≤ normInstant p
  | none => true

/-- The filter's accumulation loop over the data list. -/
def filterLoop (parse : String → Option (Int × Option Int)) (cutoff : Int) :
    List Mention → List Mention
  | [] => []
  | m :: rest =>
    if keepMention parse cutoff m then m :: filterLoop parse cutoff rest
    else filterLoop parse cutoff rest

/-- `cutoff = datetime.now(timezone.utc) - timedelta(hours=hours)`. -/
def cutoffOf (now : Int) (hours : Option Nat) : Int :=
  now - (hours.getD 0 : Nat) * 3600

/-- `filter_by_hours(full_data, hours)` of src/analysis.py.  `now` is the
value of `datetime.now(timezone.utc)` in seconds; `parse` models
`dateutil.parser.parse`. -/
def filter_by_hours (parse : String → Option (Int × Option Int)) (now : Int)
    (full_data : List Mention) (hours : Option Nat) : List Mention :=
  if hoursFalsy hours then full_data
  else filterLoop parse (cutoffOf now hours) full_data

-- === Field coercions of the KPI engine ===

/-- Digits-only accumulator for `parseIntPy`. -/
def parseDigitsAux : List Char → Nat → Option Nat
  | [], acc => some acc
  | c :: cs, acc =>
    if c.isDigit then parseDigitsAux cs (acc * 10 + (c.toNat - 48)) else none

/-- Python `int(s)` on a decimal string: surrounding whitespace stripped, one
optional sign, then digits; anything else raises (`none`).  (Underscore digit
separators are not modelled.) -/
def parseIntPy (s : String) : Option Int :=
  let t := ((s.data.dropWhile Char.isWhitespace).reverse.dropWhile
    Char.isWhitespace).reverse
  match t with
  | [] => none
  | '-' :: rest =>
    if rest = [] then none else (parseDigitsAux rest 0).map (fun n => -(n : Int))
  | '+' :: rest =>
    if rest = [] then none else (parseDigitsAux rest 0).map (fun n => (n : Int))
  | _ => (parseDigitsAux t 0).map (fun n => (n : Int))

/-- `int(item.get('likes', 0) or 0)`: absent, `None` and `""` default to 0,
ints pass through, numeric strings are parsed; `none` models the `int()` call
raising (caught by the engagement loop's `except`). -/
def coerceLC : NumVal → Option Int
  | NumVal.absent => some 0
  | NumVal.null => some 0
  | NumVal.intV n => some n
  | NumVal.strV s => if s = "" then some 0 else parseIntPy s
  | NumVal.nanV => none

/-- `int(r if pd.notna(r) else 0)` for `r = item.get('reach', 0)`: `None` and
NaN are notna-false and become 0; a string is handed to `int()` which may
raise (`none`, caught by the reach loop's bare `except`). -/
def coerceReach : NumVal → Option Int
  | NumVal.absent => some 0
  | NumVal.null => some 0
  | NumVal.intV n => some n
  | NumVal.strV s => parseIntPy s
  | NumVal.nanV => some 0

/-- The `mentioned_brands` list the counting loop iterates:
`item.get('mentioned_brands', [])`, a bare string wrapped into a one-element
list. -/
def normMB : Option MBV → List String
  | some (MBV.one v) => [v]
  | some (MBV.many vs) => vs
  | none => []

-- === Theme backfill (compute_kpis lines 174-188) ===

def csr_theme_kws : List String := ["csr", "esg", "donation", "community",
  "foundation", "initiative", "sustainability", "empower", "scholarship"]

def corporate_theme_kws : List String := ["ceo", "gmd", "profit", "results",
  "acquisition", "corporate", "raise", "capital", "bond", "earnings",
  "dividend", "financials", "shareholders"]

def partnership_theme_kws : List String := ["partner", "sponsorship",
  "marathon", "zecathon", "collaboration", "champions"]

def product_theme_kws : List String := ["app", "loan", "card",
  "customer service", "downtime", "glitch", "e-channel", "transfer", "pos",
  "digital", "feature", "platform"]

def legal_theme_kws : List String := ["fraud", "cbn", "efcc", "fine", "court",
  "scam", "allegation", "rift", "lawsuit", "crisis", "vulnerability",
  "sanction", "erosion"]

/-- The theme `if/elif` chain: plain substring containment (`kw in text_lower`),
first matching bucket wins, default `General News`. -/
def classifyTheme (text_lower : List Char) : String :=
  if csr_theme_kws.any (fun k => containsSub text_lower k.data) then "CSR/ESG"
  else if corporate_theme_kws.any (fun k => containsSub text_lower k.data) then
    "Corporate"
  else if partnership_theme_kws.any (fun k => containsSub text_lower k.data) then
    "Partnership/Sponsorship"
  else if product_theme_kws.any (fun k => containsSub text_lower k.data) then
    "Product/Service"
  else if legal_theme_kws.any (fun k => containsSub text_lower k.data) then
    "Legal/Risk"
  else "General News"

/-- The per-mention body of the analysis loop (compute_kpis lines 165-198):
backfill `sentiment` and `theme` when falsy and `mentioned_brands` when the
key is absent, leaving everything else alone. -/
def backfillMention (brand : String) (competitors : List String) (m : Mention) :
    Mention :=
  let text := m.text.getD ""
  let text_lower := (strLower text).data
  let m1 := if falsyStr m.sentiment then
      { m with sentiment := some (analyze_sentiment_keywords (some text)) }
    else m
  let m2 := if falsyStr m1.theme then
      { m1 with theme := some (classifyTheme text_lower) }
    else m1
  if m2.mentioned_brands.isNone then
    { m2 with mentioned_brands := some (MBV.many
        (([brand] ++ competitors).filter
          (fun b => reSearchWB (strLower b).data text_lower))) }
  else m2

-- === Counters (Python collections.Counter) ===

/-- `counter[k] += 1`: bump an association list, first-seen key order. -/
def bumpC {α : Type} [DecidableEq α] (c : List (α × Nat)) (k : α) :
    List (α × Nat) :=
  match c with
  | [] => [(k, 1)]
  | (k1, n) :: rest =>
    if k1 = k then (k1, n + 1) :: rest else (k1, n) :: bumpC rest k

/-- `Counter(iterable)`. -/
def counterOf {α : Type} [DecidableEq α] (l : List α) : List (α × Nat) :=
  l.foldl bumpC []

/-- `counter[k]` (0 for a missing key). -/
def countOf {α : Type} [DecidableEq α] (c : List (α × Nat)) (k : α) : Nat :=
  match c with
  | [] => 0
  | (k1, n) :: rest => if k1 = k then n else countOf rest k

-- === Brand-list ordering (compute_kpis line 211) ===

/-- Raw code-point lexicographic `<=` on strings (Python string comparison). -/
def lexLE : List Char → List Char → Bool
  | [], _ => true
  | _ :: _, [] => false
  | a :: as, b :: bs => if a = b then lexLE as bs else decide (a.toNat < b.toNat)

/-- The sort key `lambda x: (x.lower() != brand.lower(), x)` as a `<=`
relation: names case-insensitively equal to the brand first, each group in
raw lexicographic order. -/
def brandLE (brand x y : String) : Bool :=
  let kx := !(strLower x == strLower brand)
  let ky := !(strLower y == strLower brand)
  if kx == ky then lexLE x.data y.data else ky

def brandRel (brand : String) : String → String → Prop :=
  fun x y => brandLE brand x y = true

instance (brand : String) : DecidableRel (brandRel brand) := fun x y => by
  unfold brandRel; infer_instance

def social_sources : List String := ["reddit", "fb", "facebook", "ig",
  "instagram", "threads", "twitter", "x", "linkedin"]

-- === The KPI result record (the returned dict) ===

/-- The dict `compute_kpis` returns.  The empty-input return carries no
`theme_ratio` and no `analyzed_data` key, hence the `Option`s. -/
structure KPIResult : Type where
  sentiment_ratio : List (String × ℚ)
  theme_ratio : Option (List (String × ℚ))
  sov : List ℚ
  mis : Int
  mpi : ℚ
  engagement_rate : ℚ
  reach : Int
  all_brands : List String
  analyzed_data : Option (List Mention)
deriving DecidableEq

/-- The mention set the engine works on after step 1
(`if hours: full_data = filter_by_hours(full_data, hours)`). -/
def data1Of (parse : String → Option (Int × Option Int)) (now : Int)
    (full_data : List Mention) (hours : Option Nat) : List Mention :=
  if hoursFalsy hours then full_data
  else filter_by_hours parse now full_data hours

/-- `any(s in src for s in social_sources)` on a mention's lower-cased
`source`. -/
def isSocial (m : Mention) : Bool :=
  social_sources.any (fun s => strContains (strLower (m.source.getD "")) s)

/-- The SOV counting step of the analysis loop: bump the brand counter for
every name in the mention's (already backfilled) `mentioned_brands`. -/
def brandCountStep (c : List (String × Nat)) (m : Mention) :
    List (String × Nat) :=
  (normMB m.mentioned_brands).foldl bumpC c

/-- `brand_counts` after the analysis loop. -/
def brandCounts (analyzed : List Mention) : List (String × Nat) :=
  analyzed.foldl brandCountStep []

/-- `final_brand_list`: configured brands plus brands seen in data, deduped,
sorted with `key=lambda x: (x.lower() != brand.lower(), x)`. -/
def allBrandsOf (brand : String) (competitors : List String)
    (analyzed : List Mention) : List String :=
  List.insertionSort (brandRel brand)
    ((([brand] ++ competitors) ++ (brandCounts analyzed).map Prod.fst).dedup)

/-- The SOV list, parallel to `final_brand_list`. -/
def sovOf (brand : String) (competitors : List String)
    (analyzed : List Mention) : List ℚ :=
  let bc := brandCounts analyzed
  let total_appearances := (bc.map Prod.snd).sum
  (allBrandsOf brand competitors analyzed).map (fun b =>
    if 0 < total_appearances then
      ((countOf bc b : ℚ) / (total_appearances : ℚ)) * 100
    else 0)

/-- `{l: count / total_mentions * 100 for ...}` over a label list. -/
def ratioOf (labels : List String) (total_mentions : Nat) :
    List (String × ℚ) :=
  (counterOf labels).map
    (fun p => (p.1, ((p.2 : ℚ) / (total_mentions : ℚ)) * 100))

/-- Media Impact Score: authority (default 5) summed over mentions whose
sentiment is positive or appreciation. -/
def misOf (analyzed : List Mention) : Int :=
  (analyzed.map (fun m =>
    if m.sentiment == some "positive" || m.sentiment == some "appreciation"
    then m.authority.getD 5 else 0)).sum

/-- Message Penetration Index. -/
def mpiOf (campaign_messages : List String) (analyzed : List Mention)
    (total_mentions : Nat) : ℚ :=
  if campaign_messages = [] then 0 else
  let lower_msgs := campaign_messages.map strLower
  let nMatches := analyzed.countP (fun m =>
    lower_msgs.any (fun msg => strContains (strLower (m.text.getD "")) msg))
  if 0 < total_mentions then ((nMatches : ℚ) / (total_mentions : ℚ)) * 100
  else 0

/-- One iteration of the engagement loop: a non-social mention is ignored; a
social one has `likes` then `comments` coerced by `int()`, a raised
`ValueError`/`TypeError` skipping the mention entirely (`except ...:
continue`). -/
def engStep (acc : Int × Nat) (m : Mention) : Int × Nat :=
  if isSocial m then
    match coerceLC m.likes with
    | none => acc
    | some l =>
      match coerceLC m.comments with
      | none => acc
      | some c => (acc.1 + l + c, acc.2 + 1)
  else acc

/-- `engagement_rate = total_engagement / num_social_mentions` (0 when no
social mention survived coercion). -/
def engRateOf (analyzed : List Mention) : ℚ :=
  let engPair := analyzed.foldl engStep (0, 0)
  if 0 < engPair.2 then (engPair.1 : ℚ) / (engPair.2 : ℚ) else 0

/-- Total reach: each mention's `reach` coerced, a raising coercion skipped
by the bare `except: continue`. -/
def reachOf (analyzed : List Mention) : Int :=
  analyzed.foldl (fun acc m => acc + (coerceReach m.reach).getD 0) 0

/-- `compute_kpis(full_data, campaign_messages, brand, competitors, industry,
hours)` of src/analysis.py, with the ambient clock `now` and the external
date parser `parse` made explicit.  `industry` is accepted and ignored, as in
the source. -/
def analyzedOf (parse : String → Option (Int × Option Int)) (now : Int)
    (full_data : List Mention) (brand : String) (competitors : List String)
    (hours : Option Nat) : List Mention :=
  (data1Of parse now full_data hours).map (backfillMention brand competitors)

/-- The `tones` list accumulated by the analysis loop. -/
def tonesOf (analyzed : List Mention) : List String :=
  analyzed.map (fun m => m.sentiment.getD "")

/-- The `themes` list accumulated by the analysis loop. -/
def themesOf (analyzed : List Mention) : List String :=
  analyzed.map (fun m => m.theme.getD "")

def compute_kpis (parse : String → Option (Int × Option Int)) (now : Int)
    (full_data : List Mention) (campaign_messages : List String)
    (brand : String) (competitors : List String)
    (industry : Option String) (hours : Option Nat) : KPIResult :=
  if data1Of parse now full_data hours = [] then
    { sentiment_ratio := [], theme_ratio := none, sov := [], mis := 0,
      mpi := 0, engagement_rate := 0, reach := 0, all_brands := [brand],
      analyzed_data := none }
  else
    let total_mentions := (data1Of parse now full_data hours).length
    let analyzed := analyzedOf parse now full_data brand competitors hours
    { sentiment_ratio := ratioOf (tonesOf analyzed) total_mentions,
      theme_ratio := some (ratioOf (themesOf analyzed) total_mentions),
      sov := sovOf brand competitors analyzed,
      mis := misOf analyzed,
      mpi := mpiOf campaign_messages analyzed total_mentions,
      engagement_rate := engRateOf analyzed,
      reach := reachOf analyzed,
      all_brands := allBrandsOf brand competitors analyzed,
      analyzed_data := some analyzed }


/-- A date parser that always fails; irrelevant whenever no hours filter is
applied. -/
def noParse : String → Option (Int × Option Int) := fun _ => none

def mention6 : Mention :=
  { text := some "Acme is great, thanks team!", source := some "twitter",
    date := none, link := none, authority := some 8,
    reach := NumVal.intV 1000, likes := NumVal.intV 10,
    comments := NumVal.intV 5, sentiment := none, theme := none,
    mentioned_brands := none }

def mention6filled : Mention :=
  { mention6 with
    sentiment := some "positive",
    theme := some "General News",
    mentioned_brands := some (MBV.many ["Acme"]) }


-- === Keyword extraction (`extract_keywords`, src/analysis.py lines 79-111) ===

/-- The module-level additions to the NLTK stop-word set
(`stop_words.update([...])` at the top of src/analysis.py). -/
def module_extra_stop : List String := ["com", "www", "http", "https", "co",
  "uk", "amp", "rt", "via", "status", "twitter"]

/-- The generic business words `extract_keywords` adds to its dynamic
stop-word set. -/
def generic_stop : List String := ["bank", "plc", "ltd", "group", "holdings",
  "customer", "customers", "today", "year"]

/-- Python `t.isalpha()`: non-empty and all characters alphabetic. -/
def isAlphaStr (t : String) : Bool := !t.data.isEmpty && t.data.all Char.isAlpha

/-- `Counter.most_common` ordering: by count, descending; `insertionSort` with
this `>=`-style relation is stable, like Python's `sorted(..., reverse=True)`. -/
def mcRel : (String × Nat) → (String × Nat) → Prop := fun p q => q.2 ≤ p.2

instance : DecidableRel mcRel := fun p q => by unfold mcRel; infer_instance

/-- `combined_freq.most_common(10)`. -/
def most_common10 (c : List (String × Nat)) : List (String × Nat) :=
  (List.insertionSort mcRel c).take 10

/-- `extract_keywords(all_text, brand, competitors)` of src/analysis.py.
The two external inputs are passed as parameters: `tokenize` models
`nltk.word_tokenize` and `base_stop` the English stop-word list loaded from
the NLTK corpus.  Unigram counts and adjacent-bigram counts (bigrams kept
only when occurring at least twice) are merged — unigram keys never contain
a space while bigram keys always do, so the merge is disjoint — and the ten
highest counts are returned. -/
def extract_keywords (tokenize : String → List String)
    (base_stop : List String) (all_text brand : String)
    (competitors : List String) : List (String × Nat) :=
  let tokens := tokenize (strLower all_text)
  let dyn := base_stop ++ module_extra_stop ++ [strLower brand] ++
    competitors.map strLower ++ generic_stop
  let filtered := tokens.filter (fun t =>
    decide (2 < t.data.length) && isAlphaStr t && !(decide (t ∈ dyn)))
  let uniFreq := counterOf filtered
  let bigramFreq := (counterOf (List.zip filtered (filtered.drop 1))).filter
    (fun p => 2 ≤ p.2)
  let combined := uniFreq ++ bigramFreq.map (fun p => (p.1.1 ++ " " ++ p.1.2, p.2))
  most_common10 combined

/-- Accumulating splitter for `whitespaceTokenize`. -/
def wsTokAux : List Char → List Char → List String
  | [], acc => if acc = [] then [] else [⟨acc.reverse⟩]
  | c :: cs, acc =>
    if c = ' ' then
      if acc = [] then wsTokAux cs []
      else String.mk acc.reverse :: wsTokAux cs []
    else wsTokAux cs (c :: acc)

/-- A tokenizer agreeing with `nltk.word_tokenize` on space-separated
alphabetic text (the only texts it is instantiated with here). -/
def whitespaceTokenize (s : String) : List String := wsTokAux s.data []

-- === Caller-visible list state and population predicates ===

/-- Whether a mention would pass the time filter (always true when `hours` is
falsy, in which case the filter is not even applied). -/
def keptBy (parse : String → Option (Int × Option Int)) (now : Int)
    (hours : Option Nat) (m : Mention) : Bool :=
  hoursFalsy hours || keepMention parse (cutoffOf now hours) m

/-- The state of the caller's mention list after `compute_kpis` returns: the
in-place backfill touched exactly the mentions that survived the time filter,
and only when the surviving set was non-empty (the empty case returns before
the analysis loop). -/
def listAfterCall (parse : String → Option (Int × Option Int)) (now : Int)
    (full_data : List Mention) (brand : String) (competitors : List String)
    (hours : Option Nat) : List Mention :=
  if data1Of parse now full_data hours = [] then full_data
  else full_data.map (fun m =>
    if keptBy parse now hours m then backfillMention brand competitors m else m)

/-- A mention whose `sentiment`, `theme` and `mentioned_brands` are already
set (sentiment and theme truthy, `mentioned_brands` key present): the
backfill pass leaves such a mention untouched. -/
def populatedB (m : Mention) : Bool :=
  !falsyStr m.sentiment && !falsyStr m.theme && m.mentioned_brands.isSome

/-- All fields of a mention other than `sentiment`, `theme` and
`mentioned_brands` — the ones `compute_kpis` never writes. -/
def coreFields (m : Mention) :
    Option String × Option String × Option DateV × Option String ×
    Option Int × NumVal × NumVal × NumVal :=
  (m.text, m.source, m.date, m.link, m.authority, m.reach, m.likes, m.comments)

-- === Spec-side formulations used by the amended claims ===

/-- One mention's engagement contribution as the spec's amended step 9 words
it: both counters coerced, or the mention dropped from the computation. -/
def engagementOf (m : Mention) : Option Int :=
  match coerceLC m.likes, coerceLC m.comments with
  | some l, some c => some (l + c)
  | _, _ => none

/-- The amended engagement rate: over social mentions, average of likes+
comments, a mention with a non-coercible counter skipped entirely; 0 when no
social mention contributes. -/
def specEngagementRate (l : List Mention) : ℚ :=
  let vals := (l.filter isSocial).filterMap engagementOf
  if 0 < vals.length then ((vals.sum : Int) : ℚ) / (vals.length : ℚ) else 0

/-- All entries of an extraction result differ, case-insensitively, from the
brand and from every competitor name. -/
def noBrandEntries (out : List (String × Nat)) (brand : String)
    (competitors : List String) : Bool :=
  out.all (fun e => !(strLower e.1 == strLower brand) &&
    competitors.all (fun c => !(strLower e.1 == strLower c)))

/-- A string containing no space character. -/
def noSpace (s : String) : Bool := !(decide (' ' ∈ s.data))

/-- The empty-input KPI result: the exact dict returned when no mention
survives (note the missing `theme_ratio` and `analyzed_data` keys). -/
def emptyKPI (brand : String) : KPIResult :=
  { sentiment_ratio := [], theme_ratio := none, sov := [], mis := 0, mpi := 0,
    engagement_rate := 0, reach := 0, all_brands := [brand],
    analyzed_data := none }

/-- The brand ordering the claim describes: tracked brand first, remaining
names sorted case-insensitively (compare the lower-cased strings), used to
refute the claimed ordering. -/
def claimBrandLE (brand x y : String) : Bool :=
  let kx := !(strLower x == strLower brand)
  let ky := !(strLower y == strLower brand)
  if kx == ky then lexLE (strLower x).data (strLower y).data else ky

/-- A mention is fully tagged after the analysis-loop pass. -/
def fullyTagged (m : Mention) : Bool :=
  m.sentiment.isSome && m.theme.isSome && m.mentioned_brands.isSome

/-- A parser for the C4 witness: "old" parses to instant 0 (timezone-naive),
everything else raises. -/
def parseW : String → Option (Int × Option Int) := fun s =>
  if s = "old" then some (0, none) else none

def mentionOld : Mention :=
  { text := some "x", source := none, date := some (DateV.strV "old"),
    link := none, authority := none, reach := NumVal.absent,
    likes := NumVal.absent, comments := NumVal.absent, sentiment := none,
    theme := none, mentioned_brands := none }

def mentionUnparseable : Mention :=
  { mentionOld with date := some (DateV.strV "never on a sunday") }

def claimBrandRel (brand : String) : String → String → Prop :=
  fun x y => claimBrandLE brand x y = true

instance (brand : String) : DecidableRel (claimBrandRel brand) := fun x y => by
  unfold claimBrandRel; infer_instance

def mentionBlank : Mention :=
  { text := some "", source := none, date := none, link := none,
    authority := none, reach := NumVal.absent, likes := NumVal.absent,
    comments := NumVal.absent, sentiment := none, theme := none,
    mentioned_brands := none }

def mention8 : Mention :=
  { text := some "hello", source := some "twitter", date := none,
    link := none, authority := none, reach := NumVal.absent,
    likes := NumVal.strV "abc", comments := NumVal.intV 5, sentiment := none,
    theme := none, mentioned_brands := none }

-- === Helper lemmas ===


theorem countP_pos_eq_any {α : Type} (p : α → Bool) (l : List α) :
    (0 < l.countP p) = (l.any p = true) := by
  apply propext
  rw [List.countP_pos_iff, List.any_eq_true]

/-- C1: `analyze_sentiment_keywords` classifies exactly as the spec's rule
chain: whole-word keyword matching on the lower-cased text, precedence
anger, mixed, negative, positive, appreciation, neutral, with empty or
absent text mapped to `neutral` immediately. -/
theorem analyze_sentiment_keywords_correct (text : Option String) :
    analyze_sentiment_keywords text = classify_sentiment_spec text := by
  cases text with
  | none => rfl
  | some s =>
    by_cases hs : s = ""
    · subst hs; rfl
    · unfold analyze_sentiment_keywords classify_sentiment_spec
      have hfal : falsyStr (some s) = false := by
        simp [falsyStr, hs]
      simp only [hfal, Bool.false_eq_true, if_false, Option.getD_some, hs, if_neg,
        countP_pos_eq_any, Bool.or_eq_true, Bool.and_eq_true]

/-- A non-falsy optional string is present. -/
theorem isSome_of_not_falsy {o : Option String} (h : falsyStr o = false) :
    o.isSome = true := by
  cases o with
  | none => simp [falsyStr] at h
  | some s => rfl


theorem backfill_fullyTagged (brand : String) (competitors : List String)
    (m : Mention) : fullyTagged (backfillMention brand competitors m) = true := by
  unfold fullyTagged backfillMention
  dsimp only
  split_ifs <;>
    simp_all [isSome_of_not_falsy, Option.isNone_iff_eq_none,
      Option.ne_none_iff_isSome, Bool.not_eq_true]

/-- C2: whenever `compute_kpis` reaches its per-mention analysis pass (it
returns an `analyzed_data` list), every mention of that list carries a
present `sentiment`, `theme`, and `mentioned_brands`. -/
theorem compute_kpis_backfills_all
    (parse : String → Option (Int × Option Int)) (now : Int)
    (full_data : List Mention) (campaign_messages : List String)
    (brand : String) (competitors : List String) (industry : Option String)
    (hours : Option Nat) (l : List Mention)
    (h : KPIResult.analyzed_data (compute_kpis parse now full_data
      campaign_messages brand competitors industry hours) = some l) :
    l.all fullyTagged = true := by
  unfold compute_kpis at h
  by_cases hd : data1Of parse now full_data hours = []
  · rw [if_pos hd] at h; simp at h
  · rw [if_neg hd] at h
    dsimp only at h
    injection h with h2
    subst h2
    rw [List.all_eq_true]
    intro m hm
    rw [analyzedOf, List.mem_map] at hm
    obtain ⟨x, _, rfl⟩ := hm
    exact backfill_fullyTagged brand competitors x

/-- Witness for C2 at a concrete input. -/
theorem compute_kpis_backfills_all_witness :
    List.all [mention6filled] fullyTagged = true :=
  compute_kpis_backfills_all noParse 0 [mention6] [] "Acme" [] none none
    [mention6filled] (by decide)

/-- C3: an empty mention set (empty input, or everything dropped by the time
filter) is a defined terminal case: `compute_kpis` returns the exact
all-empty/zero dict with `all_brands = [brand]` — the concrete
`compute_kpis([], [], "Acme", [], None, None)` case, and the general one. -/
theorem compute_kpis_empty_terminal :
    (∀ (parse : String → Option (Int × Option Int)) (now : Int),
      compute_kpis parse now [] [] "Acme" [] none none = emptyKPI "Acme") ∧
    (∀ (parse : String → Option (Int × Option Int)) (now : Int)
      (full_data : List Mention) (campaign_messages : List String)
      (brand : String) (competitors : List String) (industry : Option String)
      (hours : Option Nat), data1Of parse now full_data hours = [] →
      compute_kpis parse now full_data campaign_messages brand competitors
        industry hours = emptyKPI brand) := by
  constructor
  · intro parse now; rfl
  · intro parse now d cm b c i hrs hd
    unfold compute_kpis
    rw [if_pos hd]
    rfl

/-- Witness for C3 at concrete inputs. -/
theorem compute_kpis_empty_terminal_witness :
    compute_kpis noParse 0 [] [] "Acme" [] none none = emptyKPI "Acme" ∧
    compute_kpis noParse 5 [] ["msg"] "BrandB" ["Comp"] none (some 2) =
      emptyKPI "BrandB" :=
  ⟨compute_kpis_empty_terminal.1 noParse 0,
   compute_kpis_empty_terminal.2 noParse 5 [] ["msg"] "BrandB" ["Comp"] none
     (some 2) (by decide)⟩

theorem filterLoop_eq_filter (parse : String → Option (Int × Option Int))
    (cutoff : Int) (l : List Mention) :
    filterLoop parse cutoff l = l.filter (keepMention parse cutoff) := by
  induction l with
  | nil => rfl
  | cons m t ih =>
    rw [filterLoop, List.filter_cons, ih]

/-- C4: the time filter is the identity for unset/zero `hours`; otherwise it
is exactly the order-preserving (sublist) filter keeping mentions whose date
normalizes to an instant at or after `now - hours`, with unparseable dates
retained (fail-open). -/
theorem filter_by_hours_spec (parse : String → Option (Int × Option Int))
    (now : Int) (full_data : List Mention) (hours : Option Nat) (m : Mention)
    (p : Int × Option Int) :
    (hoursFalsy hours = true →
      filter_by_hours parse now full_data hours = full_data) ∧
    (hoursFalsy hours = false →
      filter_by_hours parse now full_data hours =
        full_data.filter (keepMention parse (cutoffOf now hours))) ∧
    (parsedOf parse m.date = none →
      keepMention parse (cutoffOf now hours) m = true) ∧
    (parsedOf parse m.date = some p →
      (keepMention parse (cutoffOf now hours) m = true ↔
        cutoffOf now hours ≤ normInstant p)) ∧
    List.Sublist (filter_by_hours parse now full_data hours) full_data := by
  refine ⟨?_, ?_, ?_, ?_, ?_⟩
  · intro h; unfold filter_by_hours; rw [if_pos h]
  · intro h; unfold filter_by_hours
    rw [if_neg (by simp [h]), filterLoop_eq_filter]
  · intro h; unfold keepMention; rw [h]
  · intro h; unfold keepMention; rw [h]; simp
  · unfold filter_by_hours
    split_ifs
    · exact List.Sublist.refl full_data
    · rw [filterLoop_eq_filter]; exact List.filter_sublist full_data


/-- Witness for C4: with a 1-hour window at `now = 10000`, the mention dated
at instant 0 is dropped and the unparseable one is retained. -/
theorem filter_by_hours_spec_witness :
    filter_by_hours parseW 10000 [mentionOld, mentionUnparseable] (some 1) =
      List.filter (keepMention parseW (cutoffOf 10000 (some 1)))
        [mentionOld, mentionUnparseable] ∧
    keepMention parseW (cutoffOf 10000 (some 1)) mentionUnparseable = true ∧
    filter_by_hours parseW 10000 [mentionOld, mentionUnparseable] (some 1) =
      [mentionUnparseable] :=
  ⟨(filter_by_hours_spec parseW 10000 [mentionOld, mentionUnparseable]
      (some 1) mentionUnparseable (0, none)).2.1 (by decide),
   (filter_by_hours_spec parseW 10000 [mentionOld, mentionUnparseable]
      (some 1) mentionUnparseable (0, none)).2.2.1 (by decide),
   by decide⟩

theorem backfill_noop (brand : String) (competitors : List String)
    (m : Mention) (h : populatedB m = true) :
    backfillMention brand competitors m = m := by
  unfold populatedB at h
  simp only [Bool.and_eq_true, Bool.not_eq_true'] at h
  obtain ⟨⟨h1, h2⟩, h3⟩ := h
  unfold backfillMention
  cases hmb : m.mentioned_brands with
  | none => rw [hmb] at h3; simp at h3
  | some v => simp [h1, h2, hmb]

/-- C5: on an already-backfilled list the analysis pass is a no-op, so the
caller's list is unchanged and a second `compute_kpis` call on it returns the
identical result (all ratios, SOV, MIS, MPI, engagement and reach included). -/
theorem compute_kpis_idempotent (parse : String → Option (Int × Option Int))
    (now : Int) (full_data : List Mention) (campaign_messages : List String)
    (brand : String) (competitors : List String) (industry : Option String)
    (hours : Option Nat) (h : full_data.all populatedB = true) :
    listAfterCall parse now full_data brand competitors hours = full_data ∧
    compute_kpis parse now
        (listAfterCall parse now full_data brand competitors hours)
        campaign_messages brand competitors industry hours =
      compute_kpis parse now full_data campaign_messages brand competitors
        industry hours := by
  have hfix : listAfterCall parse now full_data brand competitors hours =
      full_data := by
    unfold listAfterCall
    split_ifs with hd
    · rfl
    · have hpt : ∀ m ∈ full_data,
          (if keptBy parse now hours m then
            backfillMention brand competitors m else m) = m := by
        intro m hm
        split_ifs with hk
        · exact backfill_noop brand competitors m
            (by rw [List.all_eq_true] at h; exact h m hm)
        · rfl
      rw [List.map_congr_left hpt]; simp
  exact ⟨hfix, by rw [hfix]⟩

/-- Witness for C5 at a concrete populated input. -/
theorem compute_kpis_idempotent_witness :
    listAfterCall noParse 0 [mention6filled] "Acme" [] none =
      [mention6filled] ∧
    compute_kpis noParse 0 (listAfterCall noParse 0 [mention6filled] "Acme" []
        none) [] "Acme" [] none none =
      compute_kpis noParse 0 [mention6filled] [] "Acme" [] none none :=
  compute_kpis_idempotent noParse 0 [mention6filled] [] "Acme" [] none none
    (by decide)

theorem coreFields_backfill (brand : String) (competitors : List String)
    (m : Mention) :
    coreFields (backfillMention brand competitors m) = coreFields m := by
  unfold coreFields backfillMention
  dsimp only
  split_ifs <;> rfl

/-- C10: the analysis pass writes at most `sentiment`, `theme` and
`mentioned_brands`: the returned `analyzed_data` is exactly the time-filtered
input passed through the backfill, the backfill preserves every other field,
and mentions dropped by the filter are absent from `analyzed_data`. -/
theorem compute_kpis_frame (parse : String → Option (Int × Option Int))
    (now : Int) (full_data : List Mention) (campaign_messages : List String)
    (brand : String) (competitors : List String) (industry : Option String)
    (hours : Option Nat) (l : List Mention) (m0 : Mention)
    (h : KPIResult.analyzed_data (compute_kpis parse now full_data
      campaign_messages brand competitors industry hours) = some l) :
    l = (data1Of parse now full_data hours).map
      (backfillMention brand competitors) ∧
    l.map coreFields = (data1Of parse now full_data hours).map coreFields ∧
    coreFields (backfillMention brand competitors m0) = coreFields m0 := by
  unfold compute_kpis at h
  by_cases hd : data1Of parse now full_data hours = []
  · rw [if_pos hd] at h; simp at h
  · rw [if_neg hd] at h
    dsimp only at h
    injection h with h2
    subst h2
    refine ⟨rfl, ?_, coreFields_backfill brand competitors m0⟩
    rw [analyzedOf, List.map_map]
    exact List.map_congr_left (fun m _ => coreFields_backfill brand competitors m)

/-- Witness for C10 at a concrete input. -/
theorem compute_kpis_frame_witness :
    [mention6filled] = (data1Of noParse 0 [mention6] none).map
      (backfillMention "Acme" []) ∧
    [mention6filled].map coreFields =
      (data1Of noParse 0 [mention6] none).map coreFields ∧
    coreFields (backfillMention "Acme" [] mention6) = coreFields mention6 :=
  compute_kpis_frame noParse 0 [mention6] [] "Acme" [] none none
    [mention6filled] mention6 (by decide)

set_option maxRecDepth 40000 in
/-- C6: on the single twitter mention "Acme is great, thanks team!" (likes
10, comments 5, reach 1000, authority 8) with brand "Acme" and no
competitors, campaign messages or hours filter: sentiment is backfilled to
positive (the whole word "great" is a positive keyword occurring in the
text), `mentioned_brands` to `["Acme"]`, and the result has `sov == [100.0]`,
`mis == 8`, `engagement_rate == 15` and `reach == 1000`. -/
theorem compute_kpis_basic_example :
    (compute_kpis noParse 0 [mention6] [] "Acme" [] none none).analyzed_data =
      some [mention6filled] ∧
    mention6filled.sentiment = some "positive" ∧
    mention6filled.mentioned_brands = some (MBV.many ["Acme"]) ∧
    "great" ∈ positive_kws ∧
    reSearchWB "great".data (strLower "Acme is great, thanks team!").data =
      true ∧
    (compute_kpis noParse 0 [mention6] [] "Acme" [] none none).sov = [100] ∧
    (compute_kpis noParse 0 [mention6] [] "Acme" [] none none).mis = 8 ∧
    (compute_kpis noParse 0 [mention6] [] "Acme" [] none none).engagement_rate
      = 15 ∧
    (compute_kpis noParse 0 [mention6] [] "Acme" [] none none).reach = 1000 := by
  with_unfolding_all decide

-- === Order lemmas for the brand sort ===

theorem char_toNat_inj {a b : Char} (h : a.toNat = b.toNat) : a = b := by
  unfold Char.toNat at h
  exact Char.eq_of_val_eq (UInt32.toNat.inj h)

theorem lexLE_total : ∀ a b : List Char, lexLE a b = true ∨ lexLE b a = true := by
  intro a
  induction a with
  | nil => intro b; left; rfl
  | cons x xs ih =>
    intro b
    cases b with
    | nil => right; rfl
    | cons y ys =>
      by_cases hxy : x = y
      · subst hxy
        rcases ih ys with h | h
        · left; simp [lexLE, h]
        · right; simp [lexLE, h]
      · rcases Nat.lt_trichotomy x.toNat y.toNat with h | h | h
        · left; simp [lexLE, hxy, h]
        · exact absurd (char_toNat_inj h) hxy
        · right
          have hyx : ¬y = x := fun hyx => hxy hyx.symm
          simp [lexLE, hyx, h]

theorem lexLE_trans : ∀ a b c : List Char, lexLE a b = true →
    lexLE b c = true → lexLE a c = true := by
  intro a
  induction a with
  | nil => intro b c h1 h2; rfl
  | cons x xs ih =>
    intro b c h1 h2
    cases b with
    | nil => simp [lexLE] at h1
    | cons y ys =>
      cases c with
      | nil => simp [lexLE] at h2
      | cons z zs =>
        by_cases hxy : x = y <;> by_cases hyz : y = z
        · subst hxy; subst hyz
          simp only [lexLE, if_pos rfl] at h1 h2 ⊢
          exact ih ys zs h1 h2
        · subst hxy
          simp only [lexLE, if_pos rfl, if_neg hyz] at h2 ⊢
          exact h2
        · subst hyz
          simp only [lexLE, if_pos rfl, if_neg hxy] at h1 ⊢
          exact h1
        · simp only [lexLE, if_neg hxy, if_neg hyz, decide_eq_true_eq] at h1 h2
          have hxz : x.toNat < z.toNat := Nat.lt_trans h1 h2
          have hne : ¬x = z := fun he => by
            subst he; exact Nat.lt_irrefl _ (Nat.lt_trans h1 h2)
          simp only [lexLE, if_neg hne, decide_eq_true_eq]
          exact hxz

theorem brandLE_total (brand x y : String) :
    brandLE brand x y = true ∨ brandLE brand y x = true := by
  cases hkx : !(strLower x == strLower brand) <;>
    cases hky : !(strLower y == strLower brand) <;>
      simp [brandLE, hkx, hky] <;>
      exact lexLE_total x.data y.data

theorem brandLE_trans (brand x y z : String) (h1 : brandLE brand x y = true)
    (h2 : brandLE brand y z = true) : brandLE brand x z = true := by
  cases hkx : !(strLower x == strLower brand) <;>
    cases hky : !(strLower y == strLower brand) <;>
      cases hkz : !(strLower z == strLower brand) <;>
        simp_all [brandLE] <;>
        exact lexLE_trans x.data y.data z.data h1 h2

theorem keys_bumpC {α : Type} [DecidableEq α] (c : List (α × Nat)) (k x : α) :
    x ∈ (bumpC c k).map Prod.fst ↔ x ∈ c.map Prod.fst ∨ x = k := by
  induction c with
  | nil => simp [bumpC]
  | cons p rest ih =>
    obtain ⟨k1, n⟩ := p
    by_cases hk : k1 = k
    · subst hk
      simp [bumpC]
      tauto
    · simp [bumpC, hk, ih]
      tauto

theorem keys_foldl_bumpC {α : Type} [DecidableEq α] (l : List α)
    (c : List (α × Nat)) (x : α) :
    x ∈ (l.foldl bumpC c).map Prod.fst ↔ x ∈ c.map Prod.fst ∨ x ∈ l := by
  induction l generalizing c with
  | nil => simp
  | cons a t ih =>
    rw [List.foldl_cons, ih, keys_bumpC]
    simp
    tauto

theorem keys_brandCounts (ms : List Mention) (c : List (String × Nat))
    (x : String) :
    x ∈ (ms.foldl brandCountStep c).map Prod.fst ↔
      x ∈ c.map Prod.fst ∨ ∃ m ∈ ms, x ∈ normMB m.mentioned_brands := by
  induction ms generalizing c with
  | nil => simp
  | cons m t ih =>
    rw [List.foldl_cons, ih]
    have hh : x ∈ (brandCountStep c m).map Prod.fst ↔
        x ∈ c.map Prod.fst ∨ x ∈ normMB m.mentioned_brands :=
      keys_foldl_bumpC (normMB m.mentioned_brands) c x
    rw [hh]
    simp
    tauto


/-- C7, counterexample: with brand "Acme" and competitors ["beta", "Zeta"],
the code orders the remainder by raw code points ("Zeta" before "beta"),
whereas the claimed case-insensitive alphabetical order puts "beta" first. -/
theorem all_brands_order_counterexample :
    (compute_kpis noParse 0 [mentionBlank] [] "Acme" ["beta", "Zeta"] none
      none).all_brands = ["Acme", "Zeta", "beta"] ∧
    List.insertionSort (claimBrandRel "Acme")
      ((["Acme"] ++ ["beta", "Zeta"]).dedup) = ["Acme", "beta", "Zeta"] ∧
    (compute_kpis noParse 0 [mentionBlank] [] "Acme" ["beta", "Zeta"] none
      none).all_brands ≠ ["Acme", "beta", "Zeta"] := by
  refine ⟨by decide, by decide, ?_⟩
  intro hcontra
  have : (["Acme", "Zeta", "beta"] : List String) = ["Acme", "beta", "Zeta"] := by
    rw [← hcontra]; decide
  simp at this

/-- C7 (amended): `all_brands` is exactly the duplicate-free union of
`[brand] + competitors` and every name in any analyzed mention's
`mentioned_brands`, sorted by the key
`(name.lower() != brand.lower(), name)` — names case-insensitively equal to
the tracked brand first, the remainder in raw (case-sensitive) lexicographic
order — and `sov` is parallel to it. -/
theorem all_brands_characterization
    (parse : String → Option (Int × Option Int)) (now : Int)
    (full_data : List Mention) (campaign_messages : List String)
    (brand : String) (competitors : List String) (industry : Option String)
    (hours : Option Nat) (l : List Mention) (x : String)
    (h : KPIResult.analyzed_data (compute_kpis parse now full_data
      campaign_messages brand competitors industry hours) = some l) :
    (compute_kpis parse now full_data campaign_messages brand competitors
      industry hours).all_brands.Nodup ∧
    (x ∈ (compute_kpis parse now full_data campaign_messages brand
        competitors industry hours).all_brands ↔
      x = brand ∨ x ∈ competitors ∨
        ∃ m ∈ l, x ∈ normMB m.mentioned_brands) ∧
    List.Sorted (brandRel brand) (compute_kpis parse now full_data
      campaign_messages brand competitors industry hours).all_brands ∧
    (compute_kpis parse now full_data campaign_messages brand competitors
        industry hours).sov.length =
      (compute_kpis parse now full_data campaign_messages brand competitors
        industry hours).all_brands.length := by
  unfold compute_kpis at h ⊢
  by_cases hd : data1Of parse now full_data hours = []
  · rw [if_pos hd] at h; simp at h
  · rw [if_neg hd] at h ⊢
    dsimp only at h ⊢
    injection h with h2
    subst h2
    refine ⟨?_, ?_, ?_, ?_⟩
    · unfold allBrandsOf
      exact ((List.perm_insertionSort (brandRel brand) _).nodup_iff).mpr
        (List.nodup_dedup _)
    · unfold allBrandsOf
      rw [(List.perm_insertionSort (brandRel brand) _).mem_iff,
        List.mem_dedup]
      unfold brandCounts
      rw [List.mem_append, keys_brandCounts]
      simp
      tauto
    · unfold allBrandsOf
      haveI : IsTotal String (brandRel brand) := ⟨fun a b => brandLE_total brand a b⟩
      haveI : IsTrans String (brandRel brand) :=
        ⟨fun a b c => brandLE_trans brand a b c⟩
      exact List.sorted_insertionSort (brandRel brand) _
    · unfold sovOf
      rw [List.length_map]

/-- Witness for the amended C7 at a concrete input. -/
theorem all_brands_characterization_witness :
    (compute_kpis noParse 0 [mention6] [] "Acme" [] none
      none).all_brands.Nodup ∧
    ("Acme" ∈ (compute_kpis noParse 0 [mention6] [] "Acme" [] none
        none).all_brands ↔
      "Acme" = "Acme" ∨ "Acme" ∈ ([] : List String) ∨
        ∃ m ∈ [mention6filled], "Acme" ∈ normMB m.mentioned_brands) ∧
    List.Sorted (brandRel "Acme") (compute_kpis noParse 0 [mention6] []
      "Acme" [] none none).all_brands ∧
    (compute_kpis noParse 0 [mention6] [] "Acme" [] none none).sov.length =
      (compute_kpis noParse 0 [mention6] [] "Acme" [] none
        none).all_brands.length :=
  all_brands_characterization noParse 0 [mention6] [] "Acme" [] none none
    [mention6filled] "Acme" (by decide)


/-- C8, counterexample: a twitter mention with non-coercible `likes` ("abc")
and `comments = 5` is skipped entirely by the engagement loop, giving
`engagement_rate = 0`; under the claimed zero-fill-and-participate policy it
would give `(0 + 5) / 1 = 5`. -/
theorem engagement_zero_fill_counterexample :
    (compute_kpis noParse 0 [mention8] [] "Acme" [] none
      none).engagement_rate = 0 ∧
    (compute_kpis noParse 0 [mention8] [] "Acme" [] none
      none).engagement_rate ≠ 5 ∧
    isSocial mention8 = true ∧
    coerceLC (Mention.likes mention8) = none ∧
    coerceLC (Mention.comments mention8) = some 5 := by
  with_unfolding_all decide

theorem engFold_characterization (l : List Mention) : ∀ (acc : Int × Nat),
    l.foldl engStep acc =
      (acc.1 + ((l.filter isSocial).filterMap engagementOf).sum,
       acc.2 + ((l.filter isSocial).filterMap engagementOf).length) := by
  induction l with
  | nil => intro acc; simp
  | cons m t ih =>
    intro acc
    rw [List.foldl_cons]
    by_cases hs : isSocial m
    · cases hl : coerceLC m.likes with
      | none =>
        have hstep : engStep acc m = acc := by
          unfold engStep; rw [if_pos hs, hl]
        have heo : engagementOf m = none := by
          unfold engagementOf; rw [hl]
        rw [hstep, ih, List.filter_cons_of_pos hs, List.filterMap_cons, heo]
      | some lv =>
        cases hc : coerceLC m.comments with
        | none =>
          have hstep : engStep acc m = acc := by
            unfold engStep; rw [if_pos hs, hl, hc]
          have heo : engagementOf m = none := by
            unfold engagementOf; rw [hl, hc]
          rw [hstep, ih, List.filter_cons_of_pos hs, List.filterMap_cons, heo]
        | some cv =>
          have hstep : engStep acc m = (acc.1 + lv + cv, acc.2 + 1) := by
            unfold engStep; rw [if_pos hs, hl, hc]
          have heo : engagementOf m = some (lv + cv) := by
            unfold engagementOf; rw [hl, hc]
          rw [hstep, ih, List.filter_cons_of_pos hs, List.filterMap_cons, heo]
          refine Prod.ext ?_ ?_
          · simp [List.sum_cons]; omega
          · simp only [List.length_cons]; omega
    · have hstep : engStep acc m = acc := by
        unfold engStep; rw [if_neg hs]
      rw [hstep, ih, List.filter_cons_of_neg hs]

theorem engRate_eq_spec (l : List Mention) :
    engRateOf l = specEngagementRate l := by
  unfold engRateOf specEngagementRate
  rw [engFold_characterization l (0, 0)]
  simp

/-- C8 (amended): `likes` and `comments` default to 0 when absent, `None` or
empty, integers pass through and numeric strings are coerced; but a social
mention whose `likes` or `comments` cannot be coerced is skipped entirely
from the engagement computation (neither numerator nor denominator), rather
than participating with that counter as 0. -/
theorem engagement_rate_spec (parse : String → Option (Int × Option Int))
    (now : Int) (full_data : List Mention) (campaign_messages : List String)
    (brand : String) (competitors : List String) (industry : Option String)
    (hours : Option Nat) (l : List Mention) (n : Int)
    (h : KPIResult.analyzed_data (compute_kpis parse now full_data
      campaign_messages brand competitors industry hours) = some l) :
    (compute_kpis parse now full_data campaign_messages brand competitors
      industry hours).engagement_rate = specEngagementRate l ∧
    coerceLC NumVal.absent = some 0 ∧
    coerceLC NumVal.null = some 0 ∧
    coerceLC (NumVal.intV n) = some n ∧
    coerceLC (NumVal.strV "") = some 0 ∧
    coerceLC (NumVal.strV "12") = some 12 := by
  refine ⟨?_, rfl, rfl, rfl, rfl, by decide⟩
  unfold compute_kpis at h ⊢
  by_cases hd : data1Of parse now full_data hours = []
  · rw [if_pos hd] at h; simp at h
  · rw [if_neg hd] at h ⊢
    dsimp only at h ⊢
    injection h with h2
    subst h2
    exact engRate_eq_spec _

/-- Witness for the amended C8 at a concrete input. -/
theorem engagement_rate_spec_witness :
    (compute_kpis noParse 0 [mention6] [] "Acme" [] none
      none).engagement_rate = specEngagementRate [mention6filled] ∧
    coerceLC NumVal.absent = some 0 ∧
    coerceLC NumVal.null = some 0 ∧
    coerceLC (NumVal.intV 7) = some 7 ∧
    coerceLC (NumVal.strV "") = some 0 ∧
    coerceLC (NumVal.strV "12") = some 12 :=
  engagement_rate_spec noParse 0 [mention6] [] "Acme" [] none none
    [mention6filled] 7 (by decide)

/-- C9, counterexample: a two-word brand name survives the token-level
stop-word filter and reappears as a bigram: with brand "Acme Corp" and the
corpus "Acme Corp Acme Corp Acme Corp", the phrase "acme corp" — equal to
the brand name case-insensitively — is among the returned top entries.
(`whitespaceTokenize` and the empty base stop list agree with NLTK's
tokenizer and English stop-word list on this input: the corpus is plain
space-separated alphabetic text, and neither "acme" nor "corp" is an English
stop-word.) -/
theorem extract_keywords_brand_counterexample :
    "acme corp" ∈ (extract_keywords whitespaceTokenize []
      "Acme Corp Acme Corp Acme Corp" "Acme Corp" []).map Prod.fst ∧
    strLower "acme corp" = strLower "Acme Corp" := by
  decide

theorem mem_of_most_common10 {c : List (String × Nat)} {e : String × Nat}
    (he : e ∈ most_common10 c) : e ∈ c := by
  unfold most_common10 at he
  exact (List.perm_insertionSort mcRel c).subset (List.take_subset 10 _ he)

theorem key_mem_of_mem_counter {α : Type} [DecidableEq α] {l : List α}
    {p : α × Nat} (hp : p ∈ counterOf l) : p.1 ∈ l := by
  have hk : p.1 ∈ (counterOf l).map Prod.fst := List.mem_map_of_mem Prod.fst hp
  rw [counterOf, keys_foldl_bumpC] at hk
  simpa using hk

theorem strLower_data (s : String) :
    (strLower s).data = s.data.map Char.toLower := rfl

theorem space_mem_strLower {s : String} (h : ' ' ∈ s.data) :
    ' ' ∈ (strLower s).data := by
  rw [strLower_data]
  exact List.mem_map_of_mem Char.toLower h

theorem ne_of_space {x y : String} (hx : ' ' ∈ x.data)
    (hy : noSpace y = true) : ¬x = y := by
  intro he
  subst he
  unfold noSpace at hy
  simp at hy
  exact hy hx

theorem space_mem_mid (a b : String) : ' ' ∈ (a ++ " " ++ b).data := by
  rw [String.data_append, String.data_append]
  refine List.mem_append.mpr (Or.inl (List.mem_append.mpr (Or.inr ?_)))
  decide

/-- C9 (amended): provided the lower-cased brand name and each lower-cased
competitor name contain no space (they tokenize to a single token), no entry
returned by `extract_keywords` equals any of them case-insensitively: single
tokens equal to those names are stop-filtered, and every bigram entry
contains a space.  (A multi-word name can reappear as a bigram — see the
counterexample.) -/
theorem extract_keywords_no_single_token_brand
    (tokenize : String → List String) (base_stop : List String)
    (all_text brand : String) (competitors : List String)
    (hlow : ∀ t ∈ tokenize (strLower all_text), strLower t = t)
    (hbrand : noSpace (strLower brand) = true)
    (hcomp : ∀ c ∈ competitors, noSpace (strLower c) = true) :
    noBrandEntries (extract_keywords tokenize base_stop all_text brand
      competitors) brand competitors = true := by
  unfold noBrandEntries
  rw [List.all_eq_true]
  intro e he
  unfold extract_keywords at he
  dsimp only at he
  have hec := mem_of_most_common10 he
  rw [List.mem_append] at hec
  rcases hec with hu | hb
  · -- a unigram entry: a surviving token, excluded from the stop set
    have hkey := key_mem_of_mem_counter hu
    rw [List.mem_filter] at hkey
    obtain ⟨htok, hpred⟩ := hkey
    simp only [Bool.and_eq_true, Bool.not_eq_true', decide_eq_false_iff_not]
      at hpred
    obtain ⟨-, hnotin⟩ := hpred
    have hle : strLower e.1 = e.1 := hlow e.1 htok
    rw [Bool.and_eq_true]
    constructor
    · have hne : ¬strLower e.1 = strLower brand := by
        intro heq
        exact hnotin (by
          rw [← hle, heq]
          simp [List.mem_append])
      simp [hne]
    · rw [List.all_eq_true]
      intro c hcmem
      have hne : ¬strLower e.1 = strLower c := by
        intro heq
        refine hnotin ?_
        rw [← hle, heq]
        refine List.mem_append.mpr (Or.inl ?_)
        refine List.mem_append.mpr (Or.inr ?_)
        exact List.mem_map_of_mem strLower hcmem
      simp [hne]
  · -- a bigram entry: contains a space, a no-space name cannot
    rw [List.mem_map] at hb
    obtain ⟨p, _, hpe⟩ := hb
    have hsp : ' ' ∈ e.1.data := by
      rw [← hpe]
      exact space_mem_mid p.1.1 p.1.2
    have hspl : ' ' ∈ (strLower e.1).data := space_mem_strLower hsp
    rw [Bool.and_eq_true]
    constructor
    · simp [ne_of_space hspl hbrand]
    · rw [List.all_eq_true]
      intro c hcmem
      simp [ne_of_space hspl (hcomp c hcmem)]

/-- Witness for the amended C9 at a concrete input. -/
theorem extract_keywords_no_single_token_brand_witness :
    noBrandEntries (extract_keywords whitespaceTokenize []
      "Brand is better than Comp says Brand" "Brand" ["Comp"]) "Brand"
      ["Comp"] = true :=
  extract_keywords_no_single_token_brand whitespaceTokenize []
    "Brand is better than Comp says Brand" "Brand" ["Comp"] (by decide)
    (by decide) (by decide)
